import Mathlib

/-!
Shallow embedding of the data-preprocessing pipeline of
`src/data_preprocessing/data_preprocessor.py` (class `DataPreprocessor`).

A raw demonstration is stored dimension-major, as in the Python source:
`demo : List (List ℚ)` with `demo[d]` the list of samples of workspace
dimension `d` over time.  Exact rational arithmetic stands in for NumPy
floating point in the feature-extraction functions; the arc-length
resampler, which takes Euclidean norms, is embedded over `ℝ` further below.
-/

namespace DataPreprocessor

/-- `np.max` over a vector: maximum element of a nonempty list (0 on the
empty list, on which NumPy would raise instead; theorems assume nonempty). -/
def npMax : List ℚ → ℚ
  | [] => 0
  | a :: t => t.foldl max a

/-- `np.min` over a vector, analogous to `npMax`. -/
def npMin : List ℚ → ℚ
  | [] => 0
  | a :: t => t.foldl min a

/-- `np.array(m).max(axis=0)`: column-wise maximum of a (rectangular)
matrix, the column count being read off the first row. -/
def colMax (m : List (List ℚ)) : List ℚ :=
  (List.range (m.headD []).length).map (fun d => npMax (m.map (fun r => r.getD d 0)))

/-- `np.array(m).min(axis=0)`: column-wise minimum. -/
def colMin (m : List (List ℚ)) : List ℚ :=
  (List.range (m.headD []).length).map (fun d => npMin (m.map (fun r => r.getD d 0)))

/-- `np.array(demo).max(axis=1)`: per-dimension maximum over the samples of
one demonstration (stored dimension-major). -/
def rowMaxima (demo : List (List ℚ)) : List ℚ := demo.map npMax

/-- `np.array(demo).min(axis=1)`: per-dimension minimum. -/
def rowMinima (demo : List (List ℚ)) : List ℚ := demo.map npMin

/-- The error message of the invalid-boundary-mode branch
(`raise NameError(...)`, data_preprocessor.py line 113). -/
def boundariesTypeError : String :=
  "Selected workspace boundaries type not valid. Try: from data, custom"

/-- `DataPreprocessor.get_workspace_boundaries` (lines 86-115).
`mode` is `params.workspace_boundaries_type`, `inc` is
`params.state_increment`, `bounds` is the custom `[dim, 2]` boundary array.
Returns `(x_min, x_max)`.  In `from data` mode the per-trajectory extrema
are reduced across trajectories, then the tolerance margin is added: first
`x_max` is enlarged, and `x_min` is then derived from the *already enlarged*
`x_max` (the source reassigns `x_max` on line 105 before line 106 reads it). -/
def get_workspace_boundaries (mode : String) (demos : List (List (List ℚ)))
    (inc : ℚ) (bounds : List (List ℚ)) : Except String (List ℚ × List ℚ) :=
  if mode = "from data" then
    let maxSingle := demos.map rowMaxima
    let minSingle := demos.map rowMinima
    let xMax0 := colMax maxSingle
    let xMin0 := colMin minSingle
    let xMax1 := xMax0.zipWith (fun M m => M + (M - m) * inc / 2) xMin0
    let xMin1 := xMin0.zipWith (fun m M => m - (M - m) * inc / 2) xMax1
    .ok (xMin1, xMax1)
  else if mode = "custom" then
    .ok (bounds.map (fun r => r.getD 0 0), bounds.map (fun r => r.getD 1 0))
  else
    .error boundariesTypeError

/-- `np.arange(0, stop, step)` for natural stop and step: the multiples of
`step` below `stop`; NumPy documents the length as `ceil(stop / step)`. -/
def arange (stop step : ℕ) : List ℕ :=
  (List.range ((stop + step - 1) / step)).map (fun k => k * step)

/-- `DataPreprocessor.get_trajectories_length` (lines 117-141): per
trajectory, the sample count of its first dimension; the maximum such
length; and the evaluation indexes — strided by `floor(length / eval_length)`
when the length exceeds `eval_length`, otherwise every index. -/
def get_trajectories_length (demos : List (List (List ℚ))) (evalLength : ℕ) :
    ℕ × List ℕ × List (List ℕ) :=
  let lengths := demos.map (fun d => (d.headD []).length)
  let maxLen := lengths.foldl max 0
  let evalIndexes := demos.map (fun d =>
    let L := (d.headD []).length
    if evalLength < L then arange L (L / evalLength) else arange L 1)
  (maxLen, lengths, evalIndexes)

/-- `np.unique`: the distinct values of a list, in ascending order. -/
def npUnique (l : List ℤ) : List ℤ :=
  l.dedup.insertionSort (· ≤ ·)

/-- `np.array(demo)[:, -1]`: the final sample of each dimension of one
dimension-major demonstration. -/
def lastColumn (demo : List (List ℚ)) : List ℚ :=
  demo.map (fun r => r.getLastD 0)

/-- `np.mean(np.array(vs), axis=0)`: element-wise arithmetic mean of a list
of equally long vectors, the width read off the first vector. -/
def meanVecs (vs : List (List ℚ)) : List ℚ :=
  (List.range (vs.headD []).length).map
    (fun d => (vs.map (fun r => r.getD d 0)).sum / vs.length)

/-- `DataPreprocessor.get_goals` (lines 143-161): iterate over
`np.unique(primitive_ids)`; for each id, collect the final raw sample of
every demonstration carrying that id (`np.where` order = index order) and
average them. -/
def get_goals (demos : List (List (List ℚ))) (ids : List ℤ) : List (List ℚ) :=
  (npUnique ids).map (fun i =>
    let idxs := (List.range ids.length).filter (fun j => ids.getD j 0 == i)
    meanVecs (idxs.map (fun j => lastColumn (demos.getD j []))))

/-- `self.delta_t = 1` (line 23): the synthetic unit time step. -/
def delta_t : ℚ := 1

/-- First differences along a window list, divided by the unit time step:
one slice of `(demos[:,:,:,1:] - demos[:,:,:,:-1]) / delta_t`. -/
def diffWindow (w : List ℚ) : List ℚ :=
  (w.tail.zip w).map (fun p => (p.1 - p.2) / delta_t)

/-- All values of dimension `d` of a `[traj, point, dim, window]` tensor,
flattened across axes 0, 1 and 3. -/
def collectDim (t4 : List (List (List (List ℚ)))) (d : ℕ) : List ℚ :=
  ((t4.map (fun tr => tr.map (fun pt => pt.getD d []))).flatten).flatten

/-- `DataPreprocessor.get_limits_derivatives` (lines 250-278): velocity =
first differences of the training tensor along the window axis,
acceleration = first differences of velocity; reduce with min/max over axes
(0,1,3); for a second-order system widen the velocity bounds with the same
margin rule as the workspace bounds (max first, then min from the already
widened max).  Returns `(vel min, vel max, acc min, acc max)`. -/
def get_limits_derivatives (demos : List (List (List (List ℚ))))
    (order : ℕ) (inc : ℚ) : List ℚ × List ℚ × List ℚ × List ℚ :=
  let velocity := demos.map (fun tr => tr.map (fun pt => pt.map diffWindow))
  let acceleration := velocity.map (fun tr => tr.map (fun pt => pt.map diffWindow))
  let D := ((demos.headD []).headD []).length
  let minVelocity := (List.range D).map (fun d => npMin (collectDim velocity d))
  let maxVelocity := (List.range D).map (fun d => npMax (collectDim velocity d))
  let minAcceleration := (List.range D).map (fun d => npMin (collectDim acceleration d))
  let maxAcceleration := (List.range D).map (fun d => npMax (collectDim acceleration d))
  if order = 2 then
    let maxVelocity1 := maxVelocity.zipWith (fun M m => M + (M - m) * inc / 2) minVelocity
    let minVelocity1 := minVelocity.zipWith (fun m M => m - (M - m) * inc / 2) maxVelocity1
    (minVelocity1, maxVelocity1, minAcceleration, maxAcceleration)
  else
    (minVelocity, maxVelocity, minAcceleration, maxAcceleration)

/-! ### Lemmas about `npMax` / `npMin` -/

lemma foldl_max_comm (a : ℚ) :
    ∀ (t : List ℚ) (b : ℚ), t.foldl max (max a b) = max a (t.foldl max b) := by
  intro t
  induction t with
  | nil => intro b; rfl
  | cons c t ih =>
    intro b
    simp only [List.foldl_cons, max_assoc]
    exact ih (max b c)

lemma foldl_min_comm (a : ℚ) :
    ∀ (t : List ℚ) (b : ℚ), t.foldl min (min a b) = min a (t.foldl min b) := by
  intro t
  induction t with
  | nil => intro b; rfl
  | cons c t ih =>
    intro b
    simp only [List.foldl_cons, min_assoc]
    exact ih (min b c)

lemma foldl_max_eq (b : ℚ) (l : List ℚ) (h : l ≠ []) :
    l.foldl max b = max b (npMax l) := by
  match l with
  | [] => exact absurd rfl h
  | c :: t => simp only [List.foldl_cons, npMax]; exact foldl_max_comm b t c

lemma foldl_min_eq (b : ℚ) (l : List ℚ) (h : l ≠ []) :
    l.foldl min b = min b (npMin l) := by
  match l with
  | [] => exact absurd rfl h
  | c :: t => simp only [List.foldl_cons, npMin]; exact foldl_min_comm b t c

lemma npMax_cons (a : ℚ) (t : List ℚ) (h : t ≠ []) :
    npMax (a :: t) = max a (npMax t) := by
  simp only [npMax]; exact foldl_max_eq a t h

lemma npMin_cons (a : ℚ) (t : List ℚ) (h : t ≠ []) :
    npMin (a :: t) = min a (npMin t) := by
  simp only [npMin]; exact foldl_min_eq a t h

lemma npMax_append (l₁ l₂ : List ℚ) (h₁ : l₁ ≠ []) (h₂ : l₂ ≠ []) :
    npMax (l₁ ++ l₂) = max (npMax l₁) (npMax l₂) := by
  match l₁ with
  | [] => exact absurd rfl h₁
  | a :: t =>
    calc npMax ((a :: t) ++ l₂) = (t ++ l₂).foldl max a := rfl
    _ = l₂.foldl max (t.foldl max a) := by rw [List.foldl_append]
    _ = max (t.foldl max a) (npMax l₂) := foldl_max_eq _ l₂ h₂
    _ = max (npMax (a :: t)) (npMax l₂) := rfl

lemma npMin_append (l₁ l₂ : List ℚ) (h₁ : l₁ ≠ []) (h₂ : l₂ ≠ []) :
    npMin (l₁ ++ l₂) = min (npMin l₁) (npMin l₂) := by
  match l₁ with
  | [] => exact absurd rfl h₁
  | a :: t =>
    calc npMin ((a :: t) ++ l₂) = (t ++ l₂).foldl min a := rfl
    _ = l₂.foldl min (t.foldl min a) := by rw [List.foldl_append]
    _ = min (t.foldl min a) (npMin l₂) := foldl_min_eq _ l₂ h₂
    _ = min (npMin (a :: t)) (npMin l₂) := rfl

lemma flatten_ne_nil {ls : List (List ℚ)} (hne : ls ≠ [])
    (h : ∀ l ∈ ls, l ≠ []) : ls.flatten ≠ [] := by
  match ls with
  | l :: t =>
    have hl : l ≠ [] := h l (by simp)
    simp only [List.flatten_cons, ne_eq, List.append_eq_nil]
    intro hc
    exact hl hc.1

lemma npMax_flatten :
    ∀ (ls : List (List ℚ)), ls ≠ [] → (∀ l ∈ ls, l ≠ []) →
      npMax ls.flatten = npMax (ls.map npMax) := by
  intro ls
  induction ls with
  | nil => intro h; exact absurd rfl h
  | cons l t ih =>
    intro _ h
    by_cases ht : t = []
    · subst ht; simp [npMax]
    · have hl : l ≠ [] := h l (by simp)
      have hmem : ∀ x ∈ t, x ≠ [] := fun x hx => h x (by simp [hx])
      rw [List.flatten_cons, npMax_append l t.flatten hl (flatten_ne_nil ht hmem),
        ih ht hmem, List.map_cons,
        npMax_cons (npMax l) (t.map npMax) (by simp [ht])]

lemma npMin_flatten :
    ∀ (ls : List (List ℚ)), ls ≠ [] → (∀ l ∈ ls, l ≠ []) →
      npMin ls.flatten = npMin (ls.map npMin) := by
  intro ls
  induction ls with
  | nil => intro h; exact absurd rfl h
  | cons l t ih =>
    intro _ h
    by_cases ht : t = []
    · subst ht; simp [npMin]
    · have hl : l ≠ [] := h l (by simp)
      have hmem : ∀ x ∈ t, x ≠ [] := fun x hx => h x (by simp [hx])
      rw [List.flatten_cons, npMin_append l t.flatten hl (flatten_ne_nil ht hmem),
        ih ht hmem, List.map_cons,
        npMin_cons (npMin l) (t.map npMin) (by simp [ht])]

lemma foldl_max_all_eq (a : ℚ) :
    ∀ (t : List ℚ), (∀ x ∈ t, x = a) → t.foldl max a = a := by
  intro t
  induction t with
  | nil => intro _; rfl
  | cons c t ih =>
    intro h
    have hc : c = a := h c (by simp)
    subst hc
    simp only [List.foldl_cons, max_self]
    exact ih fun x hx => h x (by simp [hx])

lemma foldl_min_all_eq (a : ℚ) :
    ∀ (t : List ℚ), (∀ x ∈ t, x = a) → t.foldl min a = a := by
  intro t
  induction t with
  | nil => intro _; rfl
  | cons c t ih =>
    intro h
    have hc : c = a := h c (by simp)
    subst hc
    simp only [List.foldl_cons, min_self]
    exact ih fun x hx => h x (by simp [hx])

lemma npMax_all_eq (l : List ℚ) (a : ℚ) (hne : l ≠ []) (h : ∀ x ∈ l, x = a) :
    npMax l = a := by
  match l with
  | [] => exact absurd rfl hne
  | c :: t =>
    have hc : c = a := h c (by simp)
    show t.foldl max c = a
    rw [hc]
    exact foldl_max_all_eq a t fun x hx => h x (by simp [hx])

lemma npMin_all_eq (l : List ℚ) (a : ℚ) (hne : l ≠ []) (h : ∀ x ∈ l, x = a) :
    npMin l = a := by
  match l with
  | [] => exact absurd rfl hne
  | c :: t =>
    have hc : c = a := h c (by simp)
    show t.foldl min c = a
    rw [hc]
    exact foldl_min_all_eq a t fun x hx => h x (by simp [hx])

/-! ### Claim theorems: workspace boundaries -/

/-- C1 (counterexample): in `from data` mode with 1-D demonstrations of raw
ranges [0,10] and [2,8] and `state_increment = 0.2`, the function does NOT
return x_min = -1 with x_max = 11: it returns x_min = -11/10 and x_max = 11,
because the x_min margin is computed from the already-expanded x_max. -/
theorem claim_C1_counterexample :
    get_workspace_boundaries "from data" [[[0, 10]], [[2, 8]]] (1/5) [] ≠
      Except.ok ([-1], [11]) ∧
    get_workspace_boundaries "from data" [[[0, 10]], [[2, 8]]] (1/5) [] =
      Except.ok ([-11/10], [11]) := by
  have heval : get_workspace_boundaries "from data" [[[0, 10]], [[2, 8]]] (1/5) [] =
      Except.ok ([-11/10], [11]) := by
    unfold get_workspace_boundaries
    rw [if_pos rfl]
    norm_num [colMax, colMin, rowMaxima, rowMinima, npMax, npMin, List.getD, List.range_succ]
  refine ⟨?_, heval⟩
  rw [heval]
  intro hc
  rw [Except.ok.injEq, Prod.mk.injEq] at hc
  have h1 : (-11/10 : ℚ) = -1 := (List.cons.inj hc.1).1
  norm_num at h1

/-- C1 (amended): in `from data` mode with two 1-D demonstrations of raw
ranges [0,10] and [2,8] and `state_increment = 0.2`, the combined pre-margin
range is [0,10]; `x_max` is expanded first to `10 + 10*0.2/2 = 11`, and
`x_min` is then derived using the already-expanded maximum,
`0 - (11-0)*0.2/2 = -1.1`, so the final bounds are x_min = -11/10 and
x_max = 11. -/
theorem claim_C1_amended_theorem :
    get_workspace_boundaries "from data" [[[0, 10]], [[2, 8]]] (1/5) [] =
      Except.ok ([-11/10], [11]) ∧
    (0 - (11 - 0) * (1/5) / 2 : ℚ) = -11/10 ∧
    (10 + (10 - 0) * (1/5) / 2 : ℚ) = 11 := by
  refine ⟨?_, by norm_num, by norm_num⟩
  unfold get_workspace_boundaries
  rw [if_pos rfl]
  norm_num [colMax, colMin, rowMaxima, rowMinima, npMax, npMin, List.getD, List.range_succ]

/-- C5: for any boundary mode other than `from data` and `custom`,
`get_workspace_boundaries` fails with the configuration error whose message
names the two valid modes, and no bounds are produced. -/
theorem claim_C5 (mode : String) (demos : List (List (List ℚ))) (inc : ℚ)
    (bounds : List (List ℚ))
    (h1 : mode ≠ "from data") (h2 : mode ≠ "custom") :
    get_workspace_boundaries mode demos inc bounds =
      Except.error boundariesTypeError ∧
    (∃ pre post, boundariesTypeError.toList =
      pre ++ "from data".toList ++ post) ∧
    (∃ pre post, boundariesTypeError.toList =
      pre ++ "custom".toList ++ post) ∧
    ∀ v, get_workspace_boundaries mode demos inc bounds ≠ Except.ok v := by
  have herr : get_workspace_boundaries mode demos inc bounds =
      Except.error boundariesTypeError := by
    unfold get_workspace_boundaries
    rw [if_neg h1, if_neg h2]
  refine ⟨herr, ?_, ?_, ?_⟩
  · exact ⟨"Selected workspace boundaries type not valid. Try: ".toList,
      ", custom".toList, by decide⟩
  · exact ⟨"Selected workspace boundaries type not valid. Try: from data, ".toList,
      [], by decide⟩
  · intro v hv
    rw [herr] at hv
    exact Except.noConfusion hv

/-! ### getD helper lemmas -/

lemma getD_map' {α β : Type} (l : List α) (f : α → β) (i : ℕ) (a : α) (b : β)
    (h : i < l.length) : (l.map f).getD i b = f (l.getD i a) := by
  rw [List.getD_eq_getElem l a h, List.getD_eq_getElem _ b (by simpa using h),
    List.getElem_map]

lemma getD_range_map {β : Type} (f : ℕ → β) (n i : ℕ) (b : β) (h : i < n) :
    ((List.range n).map f).getD i b = f i := by
  rw [getD_map' (List.range n) f i 0 b (by simpa using h),
    List.getD_eq_getElem _ 0 (by simpa using h), List.getElem_range]

lemma getD_zipWith' (f : ℚ → ℚ → ℚ) (l₁ l₂ : List ℚ) (i : ℕ)
    (h₁ : i < l₁.length) (h₂ : i < l₂.length) :
    (List.zipWith f l₁ l₂).getD i 0 = f (l₁.getD i 0) (l₂.getD i 0) := by
  rw [List.getD_eq_getElem _ 0 (by simp [List.length_zipWith]; omega),
    List.getD_eq_getElem _ 0 h₁, List.getD_eq_getElem _ 0 h₂, List.getElem_zipWith]

/-- All raw samples of workspace dimension `d` collected across every
demonstration, flattened into one list: the combined per-dimension sample
pool over which workspace bounds are characterized. -/
def allSamples (demos : List (List (List ℚ))) (d : ℕ) : List ℚ :=
  (demos.map (fun dd => dd.getD d [])).flatten

lemma colMax_rowMaxima_getD (demos : List (List (List ℚ))) (D d : ℕ)
    (hne : demos ≠ []) (hdim : ∀ dd ∈ demos, dd.length = D)
    (hsamp : ∀ dd ∈ demos, ∀ s ∈ dd, s ≠ []) (hd : d < D) :
    (colMax (demos.map rowMaxima)).getD d 0 = npMax (allSamples demos d) := by
  match demos with
  | [] => exact absurd rfl hne
  | dd0 :: rest =>
    have hhead : (((dd0 :: rest).map rowMaxima).headD []).length = D := by
      simp only [List.map_cons, List.headD_cons, rowMaxima, List.length_map]
      exact hdim dd0 (by simp)
    rw [colMax, hhead, getD_range_map _ D d 0 hd]
    have hmap : ((dd0 :: rest).map rowMaxima).map (fun r => r.getD d 0) =
        (dd0 :: rest).map (fun dd => npMax (dd.getD d [])) := by
      rw [List.map_map]
      refine List.map_congr_left fun dd hdd => ?_
      have hlen : d < dd.length := (hdim dd hdd) ▸ hd
      simp only [Function.comp_apply, rowMaxima]
      rw [getD_map' dd npMax d [] 0 hlen]
    rw [hmap]
    rw [allSamples, npMax_flatten _ (by simp) ?_, List.map_map]
    · rfl
    · intro l hl
      obtain ⟨dd, hdd, rfl⟩ := List.mem_map.mp hl
      have hlen : d < dd.length := (hdim dd hdd) ▸ hd
      rw [List.getD_eq_getElem dd [] hlen]
      exact hsamp dd hdd _ (dd.getElem_mem hlen)

lemma colMin_rowMinima_getD (demos : List (List (List ℚ))) (D d : ℕ)
    (hne : demos ≠ []) (hdim : ∀ dd ∈ demos, dd.length = D)
    (hsamp : ∀ dd ∈ demos, ∀ s ∈ dd, s ≠ []) (hd : d < D) :
    (colMin (demos.map rowMinima)).getD d 0 = npMin (allSamples demos d) := by
  match demos with
  | [] => exact absurd rfl hne
  | dd0 :: rest =>
    have hhead : (((dd0 :: rest).map rowMinima).headD []).length = D := by
      simp only [List.map_cons, List.headD_cons, rowMinima, List.length_map]
      exact hdim dd0 (by simp)
    rw [colMin, hhead, getD_range_map _ D d 0 hd]
    have hmap : ((dd0 :: rest).map rowMinima).map (fun r => r.getD d 0) =
        (dd0 :: rest).map (fun dd => npMin (dd.getD d [])) := by
      rw [List.map_map]
      refine List.map_congr_left fun dd hdd => ?_
      have hlen : d < dd.length := (hdim dd hdd) ▸ hd
      simp only [Function.comp_apply, rowMinima]
      rw [getD_map' dd npMin d [] 0 hlen]
    rw [hmap]
    rw [allSamples, npMin_flatten _ (by simp) ?_, List.map_map]
    · rfl
    · intro l hl
      obtain ⟨dd, hdd, rfl⟩ := List.mem_map.mp hl
      have hlen : d < dd.length := (hdim dd hdd) ▸ hd
      rw [List.getD_eq_getElem dd [] hlen]
      exact hsamp dd hdd _ (dd.getElem_mem hlen)

lemma colMax_rowMaxima_length (demos : List (List (List ℚ))) (D : ℕ)
    (hne : demos ≠ []) (hdim : ∀ dd ∈ demos, dd.length = D) :
    (colMax (demos.map rowMaxima)).length = D := by
  match demos with
  | [] => exact absurd rfl hne
  | dd0 :: rest =>
    simp only [colMax, List.length_map, List.length_range, List.map_cons,
      List.headD_cons, rowMaxima]
    exact hdim dd0 (by simp)

lemma colMin_rowMinima_length (demos : List (List (List ℚ))) (D : ℕ)
    (hne : demos ≠ []) (hdim : ∀ dd ∈ demos, dd.length = D) :
    (colMin (demos.map rowMinima)).length = D := by
  match demos with
  | [] => exact absurd rfl hne
  | dd0 :: rest =>
    simp only [colMin, List.length_map, List.length_range, List.map_cons,
      List.headD_cons, rowMinima]
    exact hdim dd0 (by simp)

/-- C2: in `from data` mode, for every demonstration set and every
`state_increment`, each dimension's returned maximum is the raw maximum
expanded by `(max-min)*inc/2`, and the returned minimum is derived from the
*already-expanded* maximum: `min - (max'-min)*inc/2`. -/
theorem claim_C2 (demos : List (List (List ℚ))) (inc : ℚ)
    (bounds : List (List ℚ)) (D : ℕ)
    (hne : demos ≠ [])
    (hdim : ∀ dd ∈ demos, dd.length = D)
    (hsamp : ∀ dd ∈ demos, ∀ s ∈ dd, s ≠ []) :
    ∃ xmin xmax : List ℚ,
      get_workspace_boundaries "from data" demos inc bounds =
        Except.ok (xmin, xmax) ∧
      xmin.length = D ∧ xmax.length = D ∧
      ∀ d, d < D →
        xmax.getD d 0 = npMax (allSamples demos d) +
          (npMax (allSamples demos d) - npMin (allSamples demos d)) * inc / 2 ∧
        xmin.getD d 0 = npMin (allSamples demos d) -
          (xmax.getD d 0 - npMin (allSamples demos d)) * inc / 2 := by
  have hmaxlen := colMax_rowMaxima_length demos D hne hdim
  have hminlen := colMin_rowMinima_length demos D hne hdim
  refine ⟨List.zipWith (fun m M => m - (M - m) * inc / 2)
      (colMin (demos.map rowMinima))
      (List.zipWith (fun M m => M + (M - m) * inc / 2)
        (colMax (demos.map rowMaxima)) (colMin (demos.map rowMinima))),
    List.zipWith (fun M m => M + (M - m) * inc / 2)
      (colMax (demos.map rowMaxima)) (colMin (demos.map rowMinima)),
    ?_, ?_, ?_, ?_⟩
  · unfold get_workspace_boundaries
    rw [if_pos rfl]
  · simp only [List.length_zipWith]
    omega
  · simp only [List.length_zipWith]
    omega
  · intro d hd
    have h1 : (List.zipWith (fun M m => M + (M - m) * inc / 2)
        (colMax (demos.map rowMaxima)) (colMin (demos.map rowMinima))).getD d 0 =
        npMax (allSamples demos d) +
          (npMax (allSamples demos d) - npMin (allSamples demos d)) * inc / 2 := by
      rw [getD_zipWith' _ _ _ d (hmaxlen ▸ hd) (hminlen ▸ hd),
        colMax_rowMaxima_getD demos D d hne hdim hsamp hd,
        colMin_rowMinima_getD demos D d hne hdim hsamp hd]
    refine ⟨h1, ?_⟩
    rw [getD_zipWith' _ _ _ d (hminlen ▸ hd)
        (by simp only [List.length_zipWith]; omega),
      colMin_rowMinima_getD demos D d hne hdim hsamp hd, h1]

/-- C2 witness: the margin law instantiated on the concrete two-demonstration
1-D input of §8 of the spec. -/
theorem claim_C2_witness :
    ∃ xmin xmax : List ℚ,
      get_workspace_boundaries "from data" [[[0, 10]], [[2, 8]]] (1/5) [] =
        Except.ok (xmin, xmax) ∧
      xmin.length = 1 ∧ xmax.length = 1 ∧
      ∀ d, d < 1 →
        xmax.getD d 0 = npMax (allSamples [[[0, 10]], [[2, 8]]] d) +
          (npMax (allSamples [[[0, 10]], [[2, 8]]] d) -
            npMin (allSamples [[[0, 10]], [[2, 8]]] d)) * (1/5) / 2 ∧
        xmin.getD d 0 = npMin (allSamples [[[0, 10]], [[2, 8]]] d) -
          (xmax.getD d 0 - npMin (allSamples [[[0, 10]], [[2, 8]]] d)) * (1/5) / 2 :=
  claim_C2 [[[0, 10]], [[2, 8]]] (1/5) [] 1 (by simp)
    (by intro dd hdd; fin_cases hdd <;> rfl)
    (by intro dd hdd; fin_cases hdd <;> simp)

/-- C5 witness: the mode `"bogus"` is rejected with the error naming the two
valid modes. -/
theorem claim_C5_witness :
    get_workspace_boundaries "bogus" [] 0 [] =
      Except.error boundariesTypeError ∧
    (∃ pre post, boundariesTypeError.toList =
      pre ++ "from data".toList ++ post) ∧
    (∃ pre post, boundariesTypeError.toList =
      pre ++ "custom".toList ++ post) ∧
    ∀ v, get_workspace_boundaries "bogus" [] 0 [] ≠ Except.ok v :=
  claim_C5 "bogus" [] 0 [] (by decide) (by decide)

/-! ### Claim theorems: trajectory lengths and evaluation indexes -/

lemma length_arange (stop step : ℕ) :
    (arange stop step).length = (stop + step - 1) / step := by
  simp [arange]

lemma lt_arange_count_iff (stop step k : ℕ) (hs : 1 ≤ step) :
    k < (stop + step - 1) / step ↔ k * step < stop := by
  rw [Nat.lt_iff_add_one_le, Nat.le_div_iff_mul_le hs, Nat.succ_mul]
  omega

lemma mem_arange (stop step m : ℕ) (hs : 1 ≤ step) :
    m ∈ arange stop step ↔ step ∣ m ∧ m < stop := by
  simp only [arange, List.mem_map, List.mem_range]
  constructor
  · rintro ⟨k, hk, rfl⟩
    exact ⟨Dvd.intro k (mul_comm step k), (lt_arange_count_iff stop step k hs).mp hk⟩
  · rintro ⟨⟨k, rfl⟩, hm⟩
    exact ⟨k, (lt_arange_count_iff stop step k hs).mpr (by rwa [mul_comm]),
      mul_comm k step⟩

lemma getD_arange (stop step k : ℕ) (h : k < (arange stop step).length) :
    (arange stop step).getD k 0 = k * step := by
  rw [length_arange] at h
  rw [arange, getD_range_map _ _ k 0 h]

lemma eval_indexes_eq_arange (demos : List (List (List ℚ))) (e L s j : ℕ)
    (he : 1 ≤ e) (hj : j < demos.length)
    (hL : L = ((demos.getD j []).headD []).length)
    (hs : s = if e < L then L / e else 1) :
    (get_trajectories_length demos e).2.2.getD j [] = arange L s ∧ 1 ≤ s := by
  have hget : (get_trajectories_length demos e).2.2.getD j [] =
      (if e < ((demos.getD j []).headD []).length
        then arange ((demos.getD j []).headD []).length
          (((demos.getD j []).headD []).length / e)
        else arange ((demos.getD j []).headD []).length 1) := by
    unfold get_trajectories_length
    exact getD_map' demos _ j [] [] hj
  rw [hget, ← hL]
  by_cases hcase : e < L
  · rw [if_pos hcase, hs, if_pos hcase]
    exact ⟨rfl, (Nat.one_le_div_iff (by omega)).mpr (by omega)⟩
  · rw [if_neg hcase, hs, if_neg hcase]
    exact ⟨rfl, le_rfl⟩

/-- C7: each trajectory's evaluation indexes are exactly the multiples of
the stride `floor(length / eval_length)` (when the length exceeds
`eval_length`, otherwise stride 1) lying below the trajectory length, and
the k-th index is `k * stride`. -/
theorem claim_C7 (demos : List (List (List ℚ))) (e L s j : ℕ)
    (he : 1 ≤ e) (hj : j < demos.length)
    (hL : L = ((demos.getD j []).headD []).length)
    (hs : s = if e < L then L / e else 1) :
    (∀ m, m ∈ (get_trajectories_length demos e).2.2.getD j [] ↔ s ∣ m ∧ m < L) ∧
    ∀ k, k < ((get_trajectories_length demos e).2.2.getD j []).length →
      ((get_trajectories_length demos e).2.2.getD j []).getD k 0 = k * s := by
  obtain ⟨hidx, hs1⟩ := eval_indexes_eq_arange demos e L s j he hj hL hs
  rw [hidx]
  exact ⟨fun m => mem_arange L s m hs1, fun k hk => getD_arange L s k hk⟩

/-- C7 witness: a length-50 trajectory with `eval_length = 10` yields
exactly the indexes `[0, 5, ..., 45]` (stride 5), and a length-5 trajectory
yields all indexes `[0, 1, 2, 3, 4]`. -/
theorem claim_C7_witness :
    ((∀ m, m ∈ (get_trajectories_length
        [[List.replicate 50 (0:ℚ)], [List.replicate 5 (0:ℚ)]] 10).2.2.getD 0 [] ↔
        5 ∣ m ∧ m < 50) ∧
      ∀ k, k < ((get_trajectories_length
          [[List.replicate 50 (0:ℚ)], [List.replicate 5 (0:ℚ)]] 10).2.2.getD 0 []).length →
        ((get_trajectories_length
          [[List.replicate 50 (0:ℚ)], [List.replicate 5 (0:ℚ)]] 10).2.2.getD 0 []).getD k 0 = k * 5) ∧
    ((∀ m, m ∈ (get_trajectories_length
        [[List.replicate 50 (0:ℚ)], [List.replicate 5 (0:ℚ)]] 10).2.2.getD 1 [] ↔
        1 ∣ m ∧ m < 5) ∧
      ∀ k, k < ((get_trajectories_length
          [[List.replicate 50 (0:ℚ)], [List.replicate 5 (0:ℚ)]] 10).2.2.getD 1 []).length →
        ((get_trajectories_length
          [[List.replicate 50 (0:ℚ)], [List.replicate 5 (0:ℚ)]] 10).2.2.getD 1 []).getD k 0 = k * 1) ∧
    (get_trajectories_length [[List.replicate 50 (0:ℚ)], [List.replicate 5 (0:ℚ)]] 10).2.2 =
      [[0, 5, 10, 15, 20, 25, 30, 35, 40, 45], [0, 1, 2, 3, 4]] :=
  ⟨claim_C7 [[List.replicate 50 (0:ℚ)], [List.replicate 5 (0:ℚ)]] 10 50 5 0
      (by decide) (by decide) (by decide) (by decide),
    claim_C7 [[List.replicate 50 (0:ℚ)], [List.replicate 5 (0:ℚ)]] 10 5 1 1
      (by decide) (by decide) (by decide) (by decide),
    by decide⟩

/-- C10: the reduced evaluation index set is not bounded by `eval_length`:
for a trajectory longer than `eval_length` the index count is
`ceil(length / floor(length / eval_length))`, which can exceed
`eval_length` (e.g. length 19 with `eval_length` 10 yields all 19 indexes). -/
theorem claim_C10 (demos : List (List (List ℚ))) (e L s j : ℕ)
    (he : 1 ≤ e) (hj : j < demos.length)
    (hL : L = ((demos.getD j []).headD []).length)
    (hLe : e < L) (hs : s = L / e) :
    ((get_trajectories_length demos e).2.2.getD j []).length =
      CeilDiv.ceilDiv L s := by
  obtain ⟨hidx, _⟩ := eval_indexes_eq_arange demos e L s j he hj hL
    (by rw [if_pos hLe, hs])
  rw [hidx, length_arange]
  rfl

/-- C10 witness: a length-19 trajectory with `eval_length = 10` has stride
`floor(19/10) = 1` and therefore 19 = ceil(19/1) evaluation indexes, which
exceeds `eval_length = 10`. -/
theorem claim_C10_witness :
    ((get_trajectories_length [[List.replicate 19 (0:ℚ)]] 10).2.2.getD 0 []).length =
      CeilDiv.ceilDiv 19 1 ∧
    CeilDiv.ceilDiv 19 1 = 19 ∧ 10 < 19 :=
  ⟨claim_C10 [[List.replicate 19 (0:ℚ)]] 10 19 1 0
      (by decide) (by decide) (by decide) (by decide) (by decide),
    by simp, by decide⟩

/-! ### Claim theorems: goal extraction -/

lemma range_filter_map_getD {β : Type} (dβ : β) :
    ∀ (ids : List ℤ) (demos : List β) (a : ℤ), ids.length = demos.length →
      ((List.range ids.length).filter (fun j => ids.getD j 0 == a)).map
        (fun j => demos.getD j dβ) =
      ((ids.zip demos).filter (fun p => p.1 == a)).map Prod.snd := by
  intro ids
  induction ids with
  | nil =>
    intro demos a _
    simp
  | cons i t ih =>
    intro demos a h
    match demos with
    | [] => simp at h
    | b :: bs =>
      have hlen : t.length = bs.length := by simpa using h
      rw [List.length_cons, List.range_succ_eq_map, List.filter_cons]
      have htail : (((List.range t.length).map Nat.succ).filter
            (fun j => (i :: t).getD j 0 == a)).map
            (fun j => (b :: bs).getD j dβ) =
          ((t.zip bs).filter (fun p => p.1 == a)).map Prod.snd := by
        rw [List.filter_map, List.map_map]
        have hcomp : ((List.range t.length).filter
              ((fun j => (i :: t).getD j 0 == a) ∘ Nat.succ)).map
              ((fun j => (b :: bs).getD j dβ) ∘ Nat.succ) =
            ((List.range t.length).filter (fun j => t.getD j 0 == a)).map
              (fun j => bs.getD j dβ) := by
          simp only [Function.comp_def, List.getD_cons_succ]
        rw [hcomp, ih bs a hlen]
      by_cases hia : (i == a : Bool)
      · rw [if_pos (by simpa using hia), List.map_cons, htail,
          List.zip_cons_cons, List.filter_cons, if_pos (by simpa using hia),
          List.map_cons]
        rfl
      · rw [if_neg (by simpa using hia), htail, List.zip_cons_cons,
          List.filter_cons, if_neg (by simpa using hia)]

/-- C6: `get_goals` returns one goal per unique primitive id, processed in
ascending sorted order (the unique id list is sorted, duplicate-free, and
has the same members as the raw id list), and the k-th goal is the
element-wise mean of the final raw samples of exactly the demonstrations
carrying the k-th unique id. -/
theorem claim_C6 (demos : List (List (List ℚ))) (ids : List ℤ) (u : List ℤ)
    (hlen : ids.length = demos.length) (hu : u = npUnique ids) :
    List.Sorted (· ≤ ·) u ∧ u.Nodup ∧ (∀ a, a ∈ u ↔ a ∈ ids) ∧
    (get_goals demos ids).length = u.length ∧
    ∀ k, k < u.length →
      (get_goals demos ids).getD k [] =
        meanVecs ((((ids.zip demos).filter
          (fun p => p.1 == u.getD k 0)).map Prod.snd).map lastColumn) := by
  subst hu
  have hperm := List.perm_insertionSort (· ≤ ·) ids.dedup
  refine ⟨List.sorted_insertionSort _ _,
    hperm.symm.nodup (List.nodup_dedup ids), ?_, ?_, ?_⟩
  · intro a
    simp only [npUnique]
    rw [hperm.mem_iff, List.mem_dedup]
  · simp [get_goals]
  · intro k hk
    unfold get_goals
    rw [getD_map' (npUnique ids) _ k 0 [] hk]
    show meanVecs (((List.range ids.length).filter
        (fun j => ids.getD j 0 == (npUnique ids).getD k 0)).map
        (fun j => lastColumn (demos.getD j []))) = _
    have hsplit : ((List.range ids.length).filter
        (fun j => ids.getD j 0 == (npUnique ids).getD k 0)).map
        (fun j => lastColumn (demos.getD j [])) =
      (((List.range ids.length).filter
        (fun j => ids.getD j 0 == (npUnique ids).getD k 0)).map
        (fun j => demos.getD j [])).map lastColumn := (List.map_map _ _ _).symm
    rw [hsplit, range_filter_map_getD [] ids demos _ hlen]

/-- C6 witness: one primitive id with two demonstrations whose final raw
states are [1,1] and [3,3]; the unique-id list is [7] and the computed goal
is the mean [2,2]. -/
theorem claim_C6_witness :
    (List.Sorted (· ≤ ·) [(7:ℤ)] ∧ [(7:ℤ)].Nodup ∧
      (∀ a, a ∈ [(7:ℤ)] ↔ a ∈ [(7:ℤ), 7]) ∧
      (get_goals [[[0, 1], [0, 1]], [[0, 3], [0, 3]]] [7, 7]).length = [(7:ℤ)].length ∧
      ∀ k, k < [(7:ℤ)].length →
        (get_goals [[[0, 1], [0, 1]], [[0, 3], [0, 3]]] [7, 7]).getD k [] =
          meanVecs (((([(7:ℤ), 7].zip [[[0, 1], [0, 1]], [[0, 3], [0, 3]]]).filter
            (fun p => p.1 == [(7:ℤ)].getD k 0)).map Prod.snd).map lastColumn)) ∧
    get_goals [[[0, 1], [0, 1]], [[0, 3], [0, 3]]] [7, 7] = [[2, 2]] :=
  ⟨claim_C6 [[[0, 1], [0, 1]], [[0, 3], [0, 3]]] [7, 7] [7] (by decide) (by decide),
    by norm_num [get_goals, npUnique, meanVecs, lastColumn, List.getD,
      List.insertionSort, List.orderedInsert, List.range_succ]⟩

/-! ### Claim theorems: derivative limits -/

lemma diffWindow_all_zero (w : List ℚ) (hconst : ∀ x ∈ w, ∀ y ∈ w, x = y) :
    ∀ x ∈ diffWindow w, x = 0 := by
  intro x hx
  simp only [diffWindow, List.mem_map] at hx
  obtain ⟨p, hp, rfl⟩ := hx
  have h1 : p.1 ∈ w.tail ∧ p.2 ∈ w := by
    have := List.of_mem_zip (by exact hp)
    exact this
  have heq : p.1 = p.2 := hconst p.1 (List.mem_of_mem_tail h1.1) p.2 h1.2
  rw [heq, sub_self, zero_div]

lemma length_diffWindow (w : List ℚ) : (diffWindow w).length = w.length - 1 := by
  simp only [diffWindow, List.length_map, List.length_zip, List.length_tail]
  omega

lemma mem_collectDim {t4 : List (List (List (List ℚ)))} {d : ℕ} {x : ℚ} :
    x ∈ collectDim t4 d ↔ ∃ tr ∈ t4, ∃ pt ∈ tr, x ∈ pt.getD d [] := by
  simp only [collectDim, List.mem_flatten, List.mem_map]
  constructor
  · rintro ⟨s, ⟨l, ⟨tr, htr, rfl⟩, hl⟩, hx⟩
    obtain ⟨pt, hpt, rfl⟩ := List.mem_map.mp hl
    exact ⟨tr, htr, pt, hpt, hx⟩
  · rintro ⟨tr, htr, pt, hpt, hx⟩
    exact ⟨pt.getD d [], ⟨tr.map (fun pt => pt.getD d []),
      ⟨tr, htr, rfl⟩, List.mem_map_of_mem _ hpt⟩, hx⟩

lemma collect_map_zero (demos : List (List (List (List ℚ)))) (D d : ℕ)
    (g : List ℚ → List ℚ) (hd : d < D)
    (hne : demos ≠ [])
    (htr : ∀ tr ∈ demos, tr ≠ [])
    (hpt : ∀ tr ∈ demos, ∀ pt ∈ tr, pt.length = D)
    (hg0 : ∀ tr ∈ demos, ∀ pt ∈ tr, ∀ x ∈ g (pt.getD d []), x = 0)
    (hglen : ∀ tr ∈ demos, ∀ pt ∈ tr, g (pt.getD d []) ≠ []) :
    npMin (collectDim (demos.map (fun tr => tr.map (fun pt => pt.map g))) d) = 0 ∧
    npMax (collectDim (demos.map (fun tr => tr.map (fun pt => pt.map g))) d) = 0 := by
  have hmem : ∀ x ∈ collectDim (demos.map (fun tr => tr.map (fun pt => pt.map g))) d,
      x = 0 := by
    intro x hx
    rw [mem_collectDim] at hx
    obtain ⟨tr', htr', pt', hpt', hx⟩ := hx
    obtain ⟨tr, htr0, rfl⟩ := List.mem_map.mp htr'
    obtain ⟨pt, hpt0, rfl⟩ := List.mem_map.mp hpt'
    rw [getD_map' pt g d [] [] ((hpt tr htr0 pt hpt0) ▸ hd)] at hx
    exact hg0 tr htr0 pt hpt0 x hx
  have hne' : collectDim (demos.map (fun tr => tr.map (fun pt => pt.map g))) d ≠ [] := by
    obtain ⟨tr0, htr0⟩ := List.exists_mem_of_ne_nil demos hne
    obtain ⟨pt0, hpt0⟩ := List.exists_mem_of_ne_nil tr0 (htr tr0 htr0)
    obtain ⟨x0, hx0⟩ := List.exists_mem_of_ne_nil _ (hglen tr0 htr0 pt0 hpt0)
    refine List.ne_nil_of_mem (a := x0) ?_
    rw [mem_collectDim]
    refine ⟨tr0.map (fun pt => pt.map g), List.mem_map_of_mem _ htr0,
      pt0.map g, List.mem_map_of_mem _ hpt0, ?_⟩
    rw [getD_map' pt0 g d [] [] ((hpt tr0 htr0 pt0 hpt0) ▸ hd)]
    exact hx0
  exact ⟨npMin_all_eq _ 0 hne' hmem, npMax_all_eq _ 0 hne' hmem⟩

/-- C8: on a training tensor whose window axis is constant (every
window-step value identical), with dynamical-system order 1, all four
outputs of `get_limits_derivatives` — per-dimension min/max velocity and
min/max acceleration — are zero. -/
theorem claim_C8 (demos : List (List (List (List ℚ)))) (inc : ℚ) (D W : ℕ)
    (hD : 1 ≤ D) (hW : 3 ≤ W)
    (hne : demos ≠ [])
    (htr : ∀ tr ∈ demos, tr ≠ [])
    (hpt : ∀ tr ∈ demos, ∀ pt ∈ tr, pt.length = D)
    (hwl : ∀ tr ∈ demos, ∀ pt ∈ tr, ∀ w ∈ pt, w.length = W)
    (hconst : ∀ tr ∈ demos, ∀ pt ∈ tr, ∀ w ∈ pt, ∀ x ∈ w, ∀ y ∈ w, x = y) :
    get_limits_derivatives demos 1 inc =
      (List.replicate D 0, List.replicate D 0,
        List.replicate D 0, List.replicate D 0) := by
  have hDinf : ((demos.headD []).headD []).length = D := by
    match demos, hne with
    | tr0 :: rest, _ =>
      have htr0 : tr0 ≠ [] := htr tr0 (by simp)
      match tr0, htr0 with
      | pt0 :: ptrest, _ =>
        simpa using hpt (pt0 :: ptrest) (by simp) pt0 (by simp)
  have hwin : ∀ tr ∈ demos, ∀ pt ∈ tr, ∀ d, d < D → (pt.getD d []).length = W := by
    intro tr htr' pt hpt' d hd
    have hlen : d < pt.length := (hpt tr htr' pt hpt') ▸ hd
    rw [List.getD_eq_getElem pt [] hlen]
    exact hwl tr htr' pt hpt' _ (pt.getElem_mem hlen)
  have hvel : ∀ d, d < D →
      npMin (collectDim (demos.map (fun tr => tr.map (fun pt => pt.map diffWindow))) d) = 0 ∧
      npMax (collectDim (demos.map (fun tr => tr.map (fun pt => pt.map diffWindow))) d) = 0 := by
    intro d hd
    refine collect_map_zero demos D d diffWindow hd hne htr hpt ?_ ?_
    · intro tr htr' pt hpt' x hx
      refine diffWindow_all_zero _ ?_ x hx
      intro a ha b hb
      have hlen : d < pt.length := (hpt tr htr' pt hpt') ▸ hd
      have hmemw : pt.getD d [] ∈ pt := by
        rw [List.getD_eq_getElem pt [] hlen]
        exact pt.getElem_mem hlen
      exact hconst tr htr' pt hpt' _ hmemw a ha b hb
    · intro tr htr' pt hpt'
      have : (diffWindow (pt.getD d [])).length = W - 1 := by
        rw [length_diffWindow, hwin tr htr' pt hpt' d hd]
      intro hcontra
      rw [hcontra] at this
      simp at this
      omega
  have hacc : ∀ d, d < D →
      npMin (collectDim ((demos.map (fun tr => tr.map (fun pt => pt.map diffWindow))).map
        (fun tr => tr.map (fun pt => pt.map diffWindow))) d) = 0 ∧
      npMax (collectDim ((demos.map (fun tr => tr.map (fun pt => pt.map diffWindow))).map
        (fun tr => tr.map (fun pt => pt.map diffWindow))) d) = 0 := by
    intro d hd
    have hcomp : (demos.map (fun tr => tr.map (fun pt => pt.map diffWindow))).map
        (fun tr => tr.map (fun pt => pt.map diffWindow)) =
        demos.map (fun tr => tr.map (fun pt => pt.map
          (fun w => diffWindow (diffWindow w)))) := by
      simp [List.map_map, Function.comp_def]
    rw [hcomp]
    refine collect_map_zero demos D d _ hd hne htr hpt ?_ ?_
    · intro tr htr' pt hpt' x hx
      refine diffWindow_all_zero _ ?_ x hx
      intro a ha b hb
      have hlen : d < pt.length := (hpt tr htr' pt hpt') ▸ hd
      have hmemw : pt.getD d [] ∈ pt := by
        rw [List.getD_eq_getElem pt [] hlen]
        exact pt.getElem_mem hlen
      have hz := diffWindow_all_zero (pt.getD d [])
        (hconst tr htr' pt hpt' _ hmemw)
      rw [hz a ha, hz b hb]
    · intro tr htr' pt hpt'
      have : (diffWindow (diffWindow (pt.getD d []))).length = W - 2 := by
        rw [length_diffWindow, length_diffWindow, hwin tr htr' pt hpt' d hd]
        omega
      intro hcontra
      rw [hcontra] at this
      simp at this
      omega
  unfold get_limits_derivatives
  rw [if_neg (by omega), hDinf]
  refine Prod.ext ?_ (Prod.ext ?_ (Prod.ext ?_ ?_)) <;>
    · refine List.eq_replicate_iff.mpr ⟨by simp, ?_⟩
      intro b hb
      obtain ⟨d, hd, rfl⟩ := List.mem_map.mp hb
      rw [List.mem_range] at hd
      first
      | exact (hvel d hd).1
      | exact (hvel d hd).2
      | exact (hacc d hd).1
      | exact (hacc d hd).2

/-- C8 witness: a single trajectory, single resampled point, one dimension,
constant window `[5,5,5]`: all four derivative limits are zero. -/
theorem claim_C8_witness :
    get_limits_derivatives [[[[5, 5, 5]]]] 1 (1/5) =
      (List.replicate 1 0, List.replicate 1 0,
        List.replicate 1 0, List.replicate 1 0) :=
  claim_C8 [[[[5, 5, 5]]]] (1/5) 1 3 (by norm_num) (by norm_num)
    (by simp) (by simp) (by simp) (by simp)
    (by intro tr htr pt hpt w hw x hx y hy
        fin_cases htr
        fin_cases hpt
        fin_cases hw
        fin_cases hx <;> fin_cases hy <;> rfl)

/-!
### Arc-length resampler (`generate_training_data`, lines 163-248)

Embedded over `ℝ` because the phase parametrization takes Euclidean norms.
All definitions in this part are noncomputable for that reason; claims about
them are settled by proof, with witnesses instantiating the theorems.
-/

/-- Modelled from the spec: `normalize_state` lives in
`agent/utils/dynamical_system_operations.py`, which is not among the source
files; per the spec it linearly rescales each state dimension into a bounded
reference frame using the per-dimension workspace bounds (here onto
`[-1, 1]`).  None of the claims proved below depends on the exact rescaling
formula, only on its element-wise shape. -/
noncomputable def normalize_state (x xmin xmax : List ℝ) : List ℝ :=
  (x.zip (xmin.zip xmax)).map (fun p => 2 * (p.1 - p.2.1) / (p.2.2 - p.2.1) - 1)

/-- `np.array(demonstrations_raw[j]).T` followed by `normalize_state`
(lines 178-182): the time-major normalized demonstration. -/
noncomputable def demoNorm (demo : List (List ℝ)) (xmin xmax : List ℝ) :
    List (List ℝ) :=
  demo.transpose.map (fun s => normalize_state s xmin xmax)

/-- `np.linalg.norm`: the Euclidean norm of a vector. -/
noncomputable def norm2 (v : List ℝ) : ℝ :=
  Real.sqrt ((v.map (fun x => x * x)).sum)

/-- Element-wise difference `a - b` of two vectors. -/
noncomputable def vdiff (a b : List ℝ) : List ℝ :=
  (a.zip b).map (fun p => p.1 - p.2)

/-- The `1e-15` margin substituted when two consecutive points have exactly
zero distance (line 194). -/
noncomputable def epsPhase : ℝ := 1 / 10 ^ 15

/-- The per-step phase increments (lines 188-201): the Euclidean distance of
consecutive normalized points, with the zero-distance epsilon
substitution. -/
noncomputable def phaseDeltas (dn : List (List ℝ)) : List ℝ :=
  (dn.tail.zip dn).map (fun p =>
    if norm2 (vdiff p.1 p.2) = 0 then epsPhase else norm2 (vdiff p.1 p.2))

/-- The accumulated arc-length phases (lines 185-204): `phase[0] = 0`,
`phase[i+1] = phase[i] + delta[i]`. -/
noncomputable def curvePhases (dn : List (List ℝ)) : List ℝ :=
  (phaseDeltas dn).scanl (· + ·) 0

/-- The delta channel handed to the spline (lines 203-205): the per-step
deltas with a zero appended for the last point. -/
noncomputable def splineDeltas (dn : List (List ℝ)) : List ℝ :=
  phaseDeltas dn ++ [0]

/-- `max_phase = curve_phases[-1]` (line 206). -/
noncomputable def maxPhase (dn : List (List ℝ)) : ℝ :=
  (curvePhases dn).getLastD 0

/-- The spline input channels (lines 209-213): one channel per workspace
dimension, then the phase channel, then the delta channel. -/
noncomputable def splineChannels (dn : List (List ℝ)) (dim : ℕ) :
    List (List ℝ) :=
  (List.range dim).map (fun i => dn.map (fun s => s.getD i 0)) ++
    [curvePhases dn, splineDeltas dn]

/-- Modelled from the spec: `scipy.interpolate.splprep`/`splev` with
`s = 0`, `k = 1`, `u = curve_phases` (line 216) is an exact piecewise-linear
interpolant through the data points, parametrized by the phases themselves;
outside the knot range it extrapolates the end segments.  `interp` evaluates
one channel given its (knot, value) pairs. -/
noncomputable def interp : List (ℝ × ℝ) → ℝ → ℝ
  | [], _ => 0
  | [(_, v)], _ => v
  | (k1, v1) :: (k2, v2) :: rest, t =>
    if t ≤ k2 then v1 + (v2 - v1) * (t - k1) / (k2 - k1)
    else interp ((k2, v2) :: rest) t

/-- `splev(u, spline_parameters)` restricted to one channel `c` with knots
`knots`: evaluate the piecewise-linear interpolant at every query point. -/
noncomputable def splev (u knots c : List ℝ) : List ℝ :=
  u.map (interp (knots.zip c))

/-- `np.clip(x, a_min, a_max)`. -/
noncomputable def clip (lo hi x : ℝ) : ℝ := min hi (max lo x)

/-- `np.linspace(a, b, n)`: `n` evenly spaced values from `a` to `b`
(line 219 uses `a = 0`, `b = max_phase`). -/
noncomputable def linspace (a b : ℝ) (n : ℕ) : List ℝ :=
  if n ≤ 1 then List.replicate n a
  else (List.range n).map (fun i : ℕ => a + (b - a) * (i : ℝ) / ((n : ℝ) - 1))

/-- The imitation-window loop (lines 222-238): at each step evaluate all
channels at the current phases `u`, keep the first `dim` channels as this
step's positions, read the delta channel (the last spline channel), advance
the phases by it and clamp to `[0, M]`.  The error accumulator of lines
237-238 is diagnostic only and not modelled. -/
noncomputable def resampleWindow (ch : List (List ℝ)) (knots : List ℝ)
    (M : ℝ) (dim : ℕ) : ℕ → List ℝ → List (List (List ℝ))
  | 0, _ => []
  | k + 1, u =>
    let vals := ch.map (fun c => splev u knots c)
    let positions := vals.take dim
    let delta := vals.getLastD []
    let u1 := (u.zip delta).map (fun p => clip 0 M (p.1 + p.2))
    positions :: resampleWindow ch knots M dim k u1

/-- `np.transpose(_, (0, 3, 2, 1))` restricted to one trajectory (line 247):
permute a `[window, dim, point]` block to `[point, dim, window]`, the shape
being read off the nesting as NumPy does. -/
noncomputable def perm3 (x : List (List (List ℝ))) : List (List (List ℝ)) :=
  (List.range ((x.headD []).headD []).length).map (fun p =>
    (List.range (x.headD []).length).map (fun d =>
      (List.range x.length).map (fun w => ((x.getD w []).getD d []).getD p 0)))

/-- `DataPreprocessor.generate_training_data` (lines 163-248): per
demonstration, normalize, build phases, fit the linear spline, resample
`n = trajectories_resample_length` equidistant phases, run the
imitation-window loop for `win + (order - 1)` steps, and reorder the axes to
`[trajectory, resampled point, dimension, window step]`. -/
noncomputable def generate_training_data (demos : List (List (List ℝ)))
    (xmin xmax : List ℝ) (dim n win order : ℕ) :
    List (List (List (List ℝ))) :=
  demos.map (fun demo =>
    let dn := demoNorm demo xmin xmax
    perm3 (resampleWindow (splineChannels dn dim) (curvePhases dn)
      (maxPhase dn) dim (win + (order - 1)) (linspace 0 (maxPhase dn) n)))

/-! ### Phase-sequence lemmas and claim C4 -/

lemma epsPhase_pos : 0 < epsPhase := by
  rw [epsPhase]
  positivity

lemma phaseDeltas_pos (dn : List (List ℝ)) : ∀ x ∈ phaseDeltas dn, 0 < x := by
  intro x hx
  simp only [phaseDeltas, List.mem_map] at hx
  obtain ⟨p, _, rfl⟩ := hx
  by_cases h : norm2 (vdiff p.1 p.2) = 0
  · rw [if_pos h]
    exact epsPhase_pos
  · rw [if_neg h]
    exact lt_of_le_of_ne (Real.sqrt_nonneg _) (Ne.symm h)

lemma head?_scanl (f : ℝ → ℝ → ℝ) (a : ℝ) (l : List ℝ) :
    (l.scanl f a).head? = some a := by
  cases l <;> rfl

lemma chain'_lt_scanl_add (l : List ℝ) :
    ∀ a : ℝ, (∀ x ∈ l, 0 < x) → List.Chain' (· < ·) (l.scanl (· + ·) a) := by
  induction l with
  | nil => intro a _; simp
  | cons d t ih =>
    intro a h
    rw [List.scanl_cons, List.singleton_append]
    rw [List.chain'_cons']
    refine ⟨?_, ih (a + d) fun x hx => h x (by simp [hx])⟩
    intro y hy
    rw [head?_scanl] at hy
    cases hy
    have : 0 < d := h d (by simp)
    linarith

lemma chain'_lt_curvePhases (dn : List (List ℝ)) :
    List.Chain' (· < ·) (curvePhases dn) :=
  chain'_lt_scanl_add (phaseDeltas dn) 0 (phaseDeltas_pos dn)

lemma scanl_add_ne_nil (a : ℝ) (l : List ℝ) : l.scanl (· + ·) a ≠ [] := by
  cases l <;> simp

lemma curvePhases_ne_nil (dn : List (List ℝ)) : curvePhases dn ≠ [] :=
  scanl_add_ne_nil 0 (phaseDeltas dn)

lemma getLastD_cons_of_ne_nil {α : Type} (a b : α) (l : List α) (h : l ≠ []) :
    (a :: l).getLastD b = l.getLastD b := by
  match l with
  | [] => exact absurd rfl h
  | c :: t =>
    rw [List.getLastD_eq_getLast?, List.getLastD_eq_getLast?,
      List.getLast?_cons_cons]

lemma getLastD_scanl_add (l : List ℝ) :
    ∀ a : ℝ, (l.scanl (· + ·) a).getLastD 0 = a + l.sum := by
  induction l with
  | nil => intro a; simp
  | cons d t ih =>
    intro a
    rw [List.scanl_cons, List.singleton_append,
      getLastD_cons_of_ne_nil _ _ _ (scanl_add_ne_nil _ _), ih, List.sum_cons]
    ring

lemma maxPhase_nonneg (dn : List (List ℝ)) : 0 ≤ maxPhase dn := by
  rw [maxPhase, curvePhases, getLastD_scanl_add, zero_add]
  exact List.sum_nonneg fun x hx => le_of_lt (phaseDeltas_pos dn x hx)

/-- C4: for every trajectory, the arc-length phase sequence built during
resampling starts at 0, is non-decreasing, and — thanks to the
zero-distance epsilon substitution — strictly increasing: no two
consecutive phase values are equal. -/
theorem claim_C4 (demo : List (List ℝ)) (xmin xmax : List ℝ) :
    (curvePhases (demoNorm demo xmin xmax)).head? = some 0 ∧
    List.Chain' (· ≤ ·) (curvePhases (demoNorm demo xmin xmax)) ∧
    List.Chain' (· < ·) (curvePhases (demoNorm demo xmin xmax)) := by
  refine ⟨head?_scanl _ _ _, ?_, chain'_lt_curvePhases _⟩
  exact (chain'_lt_curvePhases _).imp fun a b h => le_of_lt h

/-! ### Shape lemmas and claim C3 -/

lemma length_linspace (a b : ℝ) (n : ℕ) : (linspace a b n).length = n := by
  unfold linspace
  by_cases h : n ≤ 1
  · rw [if_pos h, List.length_replicate]
  · rw [if_neg h, List.length_map, List.length_range]

lemma length_splineChannels (dn : List (List ℝ)) (dim : ℕ) :
    (splineChannels dn dim).length = dim + 2 := by
  simp [splineChannels]

lemma splineChannels_ne_nil (dn : List (List ℝ)) (dim : ℕ) :
    splineChannels dn dim ≠ [] := by
  simp [splineChannels]

lemma getLastD_map_ne {α β : Type} (l : List α) (f : α → β) (b : β)
    (h : l ≠ []) : (l.map f).getLastD b = f (l.getLast h) := by
  rw [List.getLastD_eq_getLast?, List.getLast?_map, List.getLast?_eq_getLast l h]
  rfl

lemma resampleWindow_length (ch : List (List ℝ)) (knots : List ℝ) (M : ℝ)
    (dim : ℕ) : ∀ (k : ℕ) (u : List ℝ),
      (resampleWindow ch knots M dim k u).length = k := by
  intro k
  induction k with
  | zero => intro u; rfl
  | succ k ih =>
    intro u
    simp only [resampleWindow, List.length_cons, ih]

lemma resampleWindow_shape (ch : List (List ℝ)) (knots : List ℝ) (M : ℝ)
    (dim : ℕ) (hch : ch ≠ []) :
    ∀ (k : ℕ) (u : List ℝ) (s : List (List ℝ)),
      s ∈ resampleWindow ch knots M dim k u →
      s.length = min dim ch.length ∧ ∀ c ∈ s, c.length = u.length := by
  intro k
  induction k with
  | zero => intro u s hs; simp [resampleWindow] at hs
  | succ k ih =>
    intro u s hs
    simp only [resampleWindow, List.mem_cons] at hs
    rcases hs with rfl | hs
    · constructor
      · simp [List.length_take]
      · intro c hc
        obtain ⟨c0, _, rfl⟩ := List.mem_map.mp (List.mem_of_mem_take hc)
        simp [splev]
    · have hu1 : ((u.zip ((ch.map (fun c => splev u knots c)).getLastD [])).map
          (fun p => clip 0 M (p.1 + p.2))).length = u.length := by
        rw [List.length_map, List.length_zip, getLastD_map_ne ch _ [] hch]
        simp [splev]
      obtain ⟨hlen, hc⟩ := ih _ s hs
      exact ⟨hlen, fun c hcc => (hc c hcc).trans hu1⟩

lemma perm3_shape (x : List (List (List ℝ))) (W dim n : ℕ)
    (hxlen : x.length = W) (hs : ∀ s ∈ x, s.length = dim)
    (hc : ∀ s ∈ x, ∀ c ∈ s, c.length = n)
    (hW : 1 ≤ W) (hdim : 1 ≤ dim) :
    (perm3 x).length = n ∧
    ∀ p ∈ perm3 x, p.length = dim ∧ ∀ dl ∈ p, dl.length = W := by
  match x with
  | [] =>
    simp only [List.length_nil] at hxlen
    omega
  | s0 :: xs =>
    have hs0 : s0.length = dim := hs s0 (by simp)
    match s0, hs0 with
    | [], hs0 =>
      simp only [List.length_nil] at hs0
      omega
    | c0 :: cs, hs0 =>
      have hc0 : c0.length = n := hc (c0 :: cs) (by simp) c0 (by simp)
      refine ⟨?_, ?_⟩
      · simp only [perm3, List.headD_cons, List.length_map, List.length_range]
        exact hc0
      · intro p hp
        simp only [perm3, List.headD_cons] at hp
        obtain ⟨i, _, rfl⟩ := List.mem_map.mp hp
        constructor
        · simp only [List.length_map, List.length_range, List.length_cons]
          simpa using hs0
        · intro dl hdl
          obtain ⟨j, _, rfl⟩ := List.mem_map.mp hdl
          simpa using hxlen

/-- C3: for every demonstration list and every valid positive configuration,
the tensor returned by `generate_training_data` has shape
`[n_trajectories, trajectories_resample_length, workspace_dim,
imitation_window_size + (order - 1)]`. -/
theorem claim_C3 (demos : List (List (List ℝ))) (xmin xmax : List ℝ)
    (dim n win order W : ℕ)
    (hn : 1 ≤ n) (hwin : 1 ≤ win) (horder : order = 1 ∨ order = 2)
    (hdim : 1 ≤ dim) (hne : demos ≠ [])
    (hW : W = win + (order - 1)) :
    (generate_training_data demos xmin xmax dim n win order).length =
      demos.length ∧
    ∀ tr ∈ generate_training_data demos xmin xmax dim n win order,
      tr.length = n ∧ ∀ p ∈ tr, p.length = dim ∧ ∀ dl ∈ p, dl.length = W := by
  refine ⟨by simp [generate_training_data], ?_⟩
  intro tr htr
  obtain ⟨demo, _, rfl⟩ := List.mem_map.mp htr
  refine perm3_shape _ W dim n ?_ ?_ ?_ (by omega) hdim
  · rw [resampleWindow_length, hW]
  · intro s hs
    have := (resampleWindow_shape _ _ _ _
      (splineChannels_ne_nil _ dim) _ _ s hs).1
    rw [this, length_splineChannels]
    omega
  · intro s hs c hc
    have := (resampleWindow_shape _ _ _ _
      (splineChannels_ne_nil _ dim) _ _ s hs).2 c hc
    rw [this, length_linspace]

/-- C3 witness: one demonstration with two samples in one dimension,
`trajectories_resample_length = 1`, `imitation_window_size = 1`, order 1:
the output tensor has shape [1, 1, 1, 1]. -/
theorem claim_C3_witness :
    (generate_training_data [[[0, 1]]] [0] [1] 1 1 1 1).length =
      ([[[(0:ℝ), 1]]] : List (List (List ℝ))).length ∧
    ∀ tr ∈ generate_training_data [[[0, 1]]] [0] [1] 1 1 1 1,
      tr.length = 1 ∧ ∀ p ∈ tr, p.length = 1 ∧ ∀ dl ∈ p, dl.length = 1 :=
  claim_C3 [[[0, 1]]] [0] [1] 1 1 1 1 1 (by norm_num) (by norm_num)
    (Or.inl rfl) (by norm_num) (by simp) (by norm_num)

/-! ### Endpoint behaviour of the linear interpolant (towards claim C9) -/

lemma length_phaseDeltas (dn : List (List ℝ)) :
    (phaseDeltas dn).length = dn.length - 1 := by
  simp only [phaseDeltas, List.length_map, List.length_zip, List.length_tail]
  omega

lemma length_curvePhases (dn : List (List ℝ)) (h : dn ≠ []) :
    (curvePhases dn).length = dn.length := by
  rw [curvePhases, List.length_scanl, length_phaseDeltas]
  have : dn.length ≠ 0 := fun hc => h (List.length_eq_zero.mp hc)
  omega

lemma length_splineDeltas (dn : List (List ℝ)) (h : dn ≠ []) :
    (splineDeltas dn).length = dn.length := by
  rw [splineDeltas, List.length_append, length_phaseDeltas]
  have : dn.length ≠ 0 := fun hc => h (List.length_eq_zero.mp hc)
  simp
  omega

lemma getLastD_map' {α β : Type} (l : List α) (f : α → β) (a : α) (b : β)
    (h : l ≠ []) : (l.map f).getLastD b = f (l.getLastD a) := by
  rw [List.getLastD_eq_getLast?, List.getLast?_map,
    List.getLast?_eq_getLast l h, List.getLastD_eq_getLast?,
    List.getLast?_eq_getLast l h]
  rfl

lemma getLastD_zip (l₁ l₂ : List ℝ) :
    ∀ (h : l₁.length = l₂.length) (h₁ : l₁ ≠ []),
      (l₁.zip l₂).getLastD (0, 0) = (l₁.getLastD 0, l₂.getLastD 0) := by
  induction l₁ generalizing l₂ with
  | nil => intro _ h₁; exact absurd rfl h₁
  | cons a t₁ ih =>
    intro h h₁
    match l₂, h with
    | b :: t₂, h =>
      have hlen : t₁.length = t₂.length := by simpa using h
      rw [List.zip_cons_cons]
      by_cases ht : t₁ = []
      · subst ht
        have ht₂ : t₂ = [] := by
          have := hlen.symm
          simpa [List.length_eq_zero] using this
        subst ht₂
        rfl
      · have ht₂ : t₂ ≠ [] := by
          intro hc
          subst hc
          exact ht (List.length_eq_zero.mp (by simpa using hlen))
        have htz : t₁.zip t₂ ≠ [] := by
          intro hc
          have : (t₁.zip t₂).length = 0 := by rw [hc]; rfl
          rw [List.length_zip, hlen, min_self] at this
          exact ht₂ (List.length_eq_zero.mp this)
        rw [getLastD_cons_of_ne_nil _ _ _ htz,
          getLastD_cons_of_ne_nil _ _ _ ht, getLastD_cons_of_ne_nil _ _ _ ht₂]
        exact ih t₂ hlen ht

lemma chain'_fst_lt_getLastD :
    ∀ (l : List (ℝ × ℝ)) (p : ℝ × ℝ),
      List.Chain' (fun a b => a.1 < b.1) (p :: l) → l ≠ [] →
      p.1 < (l.getLastD (0, 0)).1 := by
  intro l
  induction l with
  | nil => intro p _ hne; exact absurd rfl hne
  | cons q l' ih =>
    intro p h _
    have hpq : p.1 < q.1 := (List.chain'_cons.mp h).1
    by_cases hl' : l' = []
    · subst hl'
      exact hpq
    · rw [getLastD_cons_of_ne_nil _ _ _ hl']
      exact lt_trans hpq (ih q (List.chain'_cons.mp h).2 hl')

lemma interp_getLastD :
    ∀ (ps : List (ℝ × ℝ)), ps ≠ [] →
      List.Chain' (fun a b => a.1 < b.1) ps →
      interp ps (ps.getLastD (0, 0)).1 = (ps.getLastD (0, 0)).2 := by
  intro ps
  induction ps with
  | nil => intro hne; exact absurd rfl hne
  | cons p ps' ih =>
    intro _ hch
    match ps' with
    | [] =>
      obtain ⟨k, v⟩ := p
      rfl
    | (k2, v2) :: ps'' =>
      obtain ⟨k1, v1⟩ := p
      have h12 : k1 < k2 := (List.chain'_cons.mp hch).1
      have hchtail : List.Chain' (fun a b => a.1 < b.1) ((k2, v2) :: ps'') :=
        (List.chain'_cons.mp hch).2
      rw [getLastD_cons_of_ne_nil _ _ _ (by simp :
        ((k2, v2) :: ps'' : List (ℝ × ℝ)) ≠ [])]
      by_cases hps'' : ps'' = []
      · subst hps''
        show interp [(k1, v1), (k2, v2)] k2 = v2
        unfold interp
        rw [if_pos le_rfl]
        have hne : k2 - k1 ≠ 0 := sub_ne_zero.mpr (ne_of_gt h12)
        field_simp
      · have hlastgt : k2 < (((k2, v2) :: ps'').getLastD (0, 0)).1 := by
          rw [getLastD_cons_of_ne_nil _ _ _ hps'']
          exact chain'_fst_lt_getLastD ps'' (k2, v2) hchtail hps''
        show interp ((k1, v1) :: (k2, v2) :: ps'')
          ((((k2, v2) :: ps'').getLastD (0, 0)).1) = _
        unfold interp
        rw [if_neg (not_le.mpr hlastgt)]
        exact ih (by simp) hchtail

lemma interp_at_maxPhase (dn : List (List ℝ)) (col : List ℝ)
    (hlen : col.length = (curvePhases dn).length) :
    interp ((curvePhases dn).zip col) (maxPhase dn) = col.getLastD 0 := by
  have hph := curvePhases_ne_nil dn
  have hz := getLastD_zip (curvePhases dn) col hlen.symm hph
  have hzne : (curvePhases dn).zip col ≠ [] := by
    intro hc
    have : ((curvePhases dn).zip col).length = 0 := by rw [hc]; rfl
    rw [List.length_zip, hlen, min_self] at this
    exact hph (List.length_eq_zero.mp this)
  have hchz : List.Chain' (fun a b => a.1 < b.1) ((curvePhases dn).zip col) := by
    have hmf : ((curvePhases dn).zip col).map Prod.fst = curvePhases dn :=
      List.map_fst_zip _ _ (le_of_eq hlen.symm)
    have := chain'_lt_curvePhases dn
    rw [← hmf] at this
    exact (List.chain'_map Prod.fst).mp this
  have hinterp := interp_getLastD _ hzne hchz
  rw [hz] at hinterp
  exact hinterp

/-! ### Claim C9: the last resampled point is pinned to the trajectory end -/

lemma getD_take' {α : Type} (l : List α) (d : α) (n i : ℕ) (hi : i < n)
    (hl : i < l.length) : (l.take n).getD i d = l.getD i d := by
  rw [List.getD_eq_getElem _ d (by rw [List.length_take]; omega),
    List.getD_eq_getElem _ d hl, List.getElem_take]

lemma splineChannels_getD_pos (dn : List (List ℝ)) (dim d : ℕ) (hd : d < dim) :
    (splineChannels dn dim).getD d [] = dn.map (fun s => s.getD d 0) := by
  rw [splineChannels,
    List.getD_append _ _ _ d (by rw [List.length_map, List.length_range]; exact hd)]
  exact getD_range_map _ dim d [] hd

lemma splineChannels_getLastD (dn : List (List ℝ)) (dim : ℕ) :
    (splineChannels dn dim).getLastD [] = splineDeltas dn := by
  rw [splineChannels]
  rw [show (List.range dim).map (fun i => dn.map (fun s => s.getD i 0)) ++
      [curvePhases dn, splineDeltas dn] =
      ((List.range dim).map (fun i => dn.map (fun s => s.getD i 0)) ++
        [curvePhases dn]) ++ [splineDeltas dn] by simp]
  rw [List.getLastD_concat]

lemma linspace_getLastD (a b : ℝ) (n : ℕ) (h : 2 ≤ n) :
    (linspace a b n).getLastD 0 = b := by
  unfold linspace
  rw [if_neg (by omega)]
  obtain ⟨m, rfl⟩ : ∃ m, n = m + 1 := ⟨n - 1, by omega⟩
  rw [List.range_succ, List.map_append, List.map_singleton, List.getLastD_concat]
  have hm : (m : ℝ) ≠ 0 := by
    have h1 : m ≠ 0 := by omega
    exact_mod_cast h1
  push_cast
  field_simp

lemma linspace_ne_nil (a b : ℝ) (n : ℕ) (h : 1 ≤ n) : linspace a b n ≠ [] := by
  intro hc
  have := length_linspace a b n
  rw [hc] at this
  simp at this
  omega

lemma splineDeltas_getLastD (dn : List (List ℝ)) :
    (splineDeltas dn).getLastD 0 = 0 := by
  rw [splineDeltas, List.getLastD_concat]

lemma splev_deltas_getLastD (dn : List (List ℝ)) (u : List ℝ)
    (hdn : dn ≠ []) (hu : u ≠ []) (hlast : u.getLastD 0 = maxPhase dn) :
    (splev u (curvePhases dn) (splineDeltas dn)).getLastD 0 = 0 := by
  simp only [splev]
  rw [getLastD_map' u _ 0 0 hu, hlast,
    interp_at_maxPhase dn (splineDeltas dn)
      (by rw [length_splineDeltas dn hdn, length_curvePhases dn hdn]),
    splineDeltas_getLastD]

lemma resampleWindow_last_point (dn : List (List ℝ)) (dim : ℕ) (hdn : dn ≠ []) :
    ∀ (k : ℕ) (u : List ℝ), u ≠ [] → u.getLastD 0 = maxPhase dn →
      ∀ w, w < k → ∀ d, d < dim →
        (((resampleWindow (splineChannels dn dim) (curvePhases dn)
            (maxPhase dn) dim k u).getD w []).getD d []).getLastD 0 =
          (dn.getLastD []).getD d 0 := by
  intro k
  induction k with
  | zero => intro u _ _ w hw; omega
  | succ k ih =>
    intro u hu hlast w hw d hd
    simp only [resampleWindow]
    have hdelta : ((splineChannels dn dim).map
        (fun c => splev u (curvePhases dn) c)).getLastD [] =
        splev u (curvePhases dn) (splineDeltas dn) := by
      rw [getLastD_map' (splineChannels dn dim) _ [] []
        (splineChannels_ne_nil dn dim), splineChannels_getLastD]
    cases w with
    | zero =>
      rw [List.getD_cons_zero]
      rw [getD_take' _ [] dim d hd
        (by rw [List.length_map, length_splineChannels]; omega)]
      rw [getD_map' (splineChannels dn dim) _ d [] []
        (by rw [length_splineChannels]; omega)]
      rw [splineChannels_getD_pos dn dim d hd]
      simp only [splev]
      rw [getLastD_map' u _ 0 0 hu, hlast,
        interp_at_maxPhase dn (dn.map (fun s => s.getD d 0))
          (by rw [List.length_map, length_curvePhases dn hdn]),
        getLastD_map' dn _ [] 0 hdn]
    | succ w' =>
      rw [List.getD_cons_succ, hdelta]
      have hdlen : (splev u (curvePhases dn) (splineDeltas dn)).length =
          u.length := by simp [splev]
      have hune : u.length ≠ 0 := fun hc => hu (List.length_eq_zero.mp hc)
      have hzne : u.zip (splev u (curvePhases dn) (splineDeltas dn)) ≠ [] := by
        intro hc
        have : (u.zip (splev u (curvePhases dn) (splineDeltas dn))).length = 0 := by
          rw [hc]; rfl
        rw [List.length_zip, hdlen, min_self] at this
        exact hune this
      have hu1ne : (u.zip (splev u (curvePhases dn)
          (splineDeltas dn))).map (fun p => clip 0 (maxPhase dn) (p.1 + p.2)) ≠ [] := by
        intro hc
        exact hzne (List.map_eq_nil_iff.mp hc)
      have hu1last : ((u.zip (splev u (curvePhases dn)
          (splineDeltas dn))).map (fun p => clip 0 (maxPhase dn)
            (p.1 + p.2))).getLastD 0 = maxPhase dn := by
        rw [getLastD_map' _ _ (0, 0) 0 hzne,
          getLastD_zip u _ hdlen.symm hu, hlast,
          splev_deltas_getLastD dn u hdn hu hlast]
        show clip 0 (maxPhase dn) (maxPhase dn + 0) = maxPhase dn
        rw [add_zero, clip, max_eq_right (maxPhase_nonneg dn), min_self]
      exact ih _ hu1ne hu1last w' (by omega) d hd

/-- C9: for every normalized trajectory and every resample count `n ≥ 2`,
the last resampled phase produced by `linspace` is exactly `max_phase`; the
recorded last per-step delta is 0, and the spline's delta channel evaluates
to 0 at `max_phase`; the clamp to `[0, max_phase]` therefore keeps the last
query phase fixed, so along the whole window axis the last resampled
point's positions equal the trajectory's final normalized position. -/
theorem claim_C9 (dn : List (List ℝ)) (dim n W : ℕ)
    (hn : 2 ≤ n) (hdn : dn ≠ []) :
    (linspace 0 (maxPhase dn) n).getLastD 0 = maxPhase dn ∧
    (splineDeltas dn).getLastD 0 = 0 ∧
    interp ((curvePhases dn).zip (splineDeltas dn)) (maxPhase dn) = 0 ∧
    ∀ w, w < W → ∀ d, d < dim →
      (((resampleWindow (splineChannels dn dim) (curvePhases dn)
          (maxPhase dn) dim W (linspace 0 (maxPhase dn) n)).getD w
          []).getD d []).getLastD 0 =
        (dn.getLastD []).getD d 0 := by
  have hlin : (linspace 0 (maxPhase dn) n).getLastD 0 = maxPhase dn :=
    linspace_getLastD 0 (maxPhase dn) n hn
  refine ⟨hlin, splineDeltas_getLastD dn, ?_, ?_⟩
  · rw [interp_at_maxPhase dn (splineDeltas dn)
      (by rw [length_splineDeltas dn hdn, length_curvePhases dn hdn]),
      splineDeltas_getLastD]
  · exact resampleWindow_last_point dn dim hdn W _
      (linspace_ne_nil 0 (maxPhase dn) n (by omega)) hlin

/-- C9 witness: the one-dimensional normalized trajectory `[[0], [1]]`
resampled at `n = 2` points with a single window step: the last resampled
point's position equals the final normalized position for every window
step and dimension. -/
theorem claim_C9_witness :
    (linspace 0 (maxPhase [[(0:ℝ)], [1]]) 2).getLastD 0 =
      maxPhase [[(0:ℝ)], [1]] ∧
    (splineDeltas [[(0:ℝ)], [1]]).getLastD 0 = 0 ∧
    interp ((curvePhases [[(0:ℝ)], [1]]).zip (splineDeltas [[(0:ℝ)], [1]]))
      (maxPhase [[(0:ℝ)], [1]]) = 0 ∧
    ∀ w, w < 1 → ∀ d, d < 1 →
      (((resampleWindow (splineChannels [[(0:ℝ)], [1]] 1)
          (curvePhases [[(0:ℝ)], [1]]) (maxPhase [[(0:ℝ)], [1]]) 1 1
          (linspace 0 (maxPhase [[(0:ℝ)], [1]]) 2)).getD w []).getD d
          []).getLastD 0 =
        ([[(0:ℝ)], [1]].getLastD []).getD d 0 :=
  claim_C9 [[(0:ℝ)], [1]] 1 2 1 (by norm_num) (by simp)

end DataPreprocessor
